import Mathlib

/-!
# Verification of the review-reminder scheduling core

Shallow embedding of the scheduling and bucketing engine of
`src/main.ts` (an Obsidian note-review plugin), together with proofs of
the specification claims about it.

JavaScript numbers that can be `NaN` are modelled as `Option Int`
(`none` = `NaN`); all numeric values arising in this program are
integer-valued.  Frontmatter values are modelled by the inductive
`JsVal`; fallible operations return `Except Unit` (`Except.error ()` =
a thrown `TypeError`).
-/

/-! ## JavaScript value model -/

/-- A YAML-frontmatter value as surfaced to the plugin: a string, an
(integer-valued) number, a boolean, `null`, or an array. -/
inductive JsVal where
  | str (s : String)
  | num (n : Int)
  | bool (b : Bool)
  | nul
  | list (xs : List JsVal)

/-- The character for the decimal digit `d` (`d < 10`). -/
def digitChar (d : Nat) : Char := Char.ofNat (48 + d)

/-- Numeric value of a digit character. -/
def charDigit (c : Char) : Nat := c.toNat - 48

/-- Value of a most-significant-first digit string. -/
def digitsToNat (cs : List Char) : Nat :=
  cs.foldl (fun a c => a * 10 + charDigit c) 0

/-- Decimal digits of `n`, most significant first (model of the decimal
rendering used by JavaScript `String(n)` for a non-negative integer). -/
def natToCharsAux (n : Nat) (acc : List Char) : List Char :=
  if n < 10 then digitChar n :: acc
  else natToCharsAux (n / 10) (digitChar (n % 10) :: acc)
termination_by n
decreasing_by omega

def natToChars (n : Nat) : List Char := natToCharsAux n []

/-- Model of JavaScript `String(n)` for an integer `n`. -/
def intToChars (n : Int) : List Char :=
  if n < 0 then '-' :: natToChars (-n).toNat else natToChars n.toNat

mutual

/-- Model of JavaScript `String(v)` on frontmatter values. -/
def jsValToString : JsVal → String
  | JsVal.str s => s
  | JsVal.num n => String.mk (intToChars n)
  | JsVal.bool b => if b then "true" else "false"
  | JsVal.nul => "null"
  | JsVal.list xs => jsListToString xs

/-- Model of JavaScript `Array.prototype.toString` (elements joined by
commas). -/
def jsListToString : List JsVal → String
  | [] => ""
  | [v] => jsValToString v
  | v :: vs => jsValToString v ++ "," ++ jsListToString vs

end

/-- Model of JavaScript falsiness, used by the `if (!raw) continue;`
guard in `scanVault`. -/
def jsFalsy : JsVal → Bool
  | JsVal.str s => s.data.isEmpty
  | JsVal.num n => n == 0
  | JsVal.bool b => !b
  | JsVal.nul => true
  | JsVal.list _ => false

/-! ## Number coercions -/

/-- Leading/trailing-whitespace trim on a character list (model of
JavaScript `String.prototype.trim`). -/
def jsTrimChars (cs : List Char) : List Char :=
  ((cs.dropWhile Char.isWhitespace).reverse.dropWhile Char.isWhitespace).reverse

/-- Model of JavaScript `String.prototype.trim`. -/
def jsTrim (s : String) : String := String.mk (jsTrimChars s.data)

/-- Model of JavaScript `Number(s)` for a string `s`, restricted to the
integer literals this program manipulates: the empty (or all-blank)
string coerces to `0`, an optionally signed digit string to its value,
and anything else to `NaN` (`none`).  Fractional, hexadecimal and
exponent literals are outside the model. -/
def jsNumberOfString (s : String) : Option Int :=
  match jsTrimChars s.data with
  | [] => some 0
  | '-' :: rest =>
      if rest ≠ [] ∧ rest.all Char.isDigit then some (-(digitsToNat rest : Int)) else none
  | '+' :: rest =>
      if rest ≠ [] ∧ rest.all Char.isDigit then some ((digitsToNat rest : Int)) else none
  | cs =>
      if cs.all Char.isDigit then some ((digitsToNat cs : Int)) else none

/-- Model of JavaScript `Number(v)` (`none` = `NaN`). -/
def jsNumber : JsVal → Option Int
  | JsVal.num n => some n
  | JsVal.bool b => some (if b then 1 else 0)
  | JsVal.nul => some 0
  | JsVal.str s => jsNumberOfString s
  | JsVal.list xs => jsNumberOfString (jsListToString xs)

/-- Model of JavaScript `parseInt(s, 10)`: skip leading whitespace, read
an optional sign and then the longest prefix of decimal digits; `NaN`
(`none`) when that prefix is empty. -/
def parseIntJS (s : String) : Option Int :=
  let cs := s.data.dropWhile Char.isWhitespace
  match cs with
  | '-' :: rest =>
      let ds := rest.takeWhile Char.isDigit
      if ds = [] then none else some (-(digitsToNat ds : Int))
  | '+' :: rest =>
      let ds := rest.takeWhile Char.isDigit
      if ds = [] then none else some ((digitsToNat ds : Int))
  | cs' =>
      let ds := cs'.takeWhile Char.isDigit
      if ds = [] then none else some ((digitsToNat ds : Int))

/-! ## Interval table (`parseIntervals` / `getInterval`) -/

/-- Split on `','` (model of JavaScript `s.split(",")`; note that the
empty string splits to `[""]`). -/
def splitCommaAux : List Char → List Char → List String
  | [], cur => [String.mk cur.reverse]
  | c :: rest, cur =>
      if c = ',' then String.mk cur.reverse :: splitCommaAux rest []
      else splitCommaAux rest (c :: cur)

def jsSplit (s : String) : List String := splitCommaAux s.data []

/-- Embeds `parseIntervals` (src/main.ts:56-61): split the raw setting
on commas, `parseInt` each trimmed token, keep the values that are not
`NaN` and are `> 0`. -/
def parseIntervals (raw : String) : List Int :=
  (((jsSplit raw).map fun s => parseIntJS (jsTrim s)).filter fun o =>
      match o with
      | some n => decide (0 < n)
      | none => false).filterMap id

/-- JavaScript array indexing `xs[i]`: `undefined` (`none`) out of
bounds, in particular for every negative index. -/
def jsIndex (xs : List Int) (i : Int) : Option Int :=
  if h : 0 ≤ i ∧ i.toNat < xs.length then some (xs.get ⟨i.toNat, h.2⟩) else none

/-- Embeds `getInterval` (src/main.ts:63-68): `1` on an empty table,
`intervals[level]` when `level < intervals.length`, and the last entry
otherwise.  The result is a JavaScript number-or-undefined, hence
`Option Int`. -/
def getInterval (intervals : List Int) (level : Int) : Option Int :=
  if intervals.length = 0 then some 1
  else if level < (intervals.length : Int) then jsIndex intervals level
  else jsIndex intervals ((intervals.length : Int) - 1)

/-! ## Calendar model

JavaScript `Date` is modelled in a single reference calendar (offset
zero, no daylight-saving shifts) as a civil date plus the milliseconds
elapsed since that day's midnight.  The conversions between a civil
date and a day number are the standard Gregorian `days_from_civil` /
`civil_from_days` algorithms. -/

structure CivilDate where
  year : Int
  month : Nat
  day : Nat
deriving DecidableEq, Repr

structure JSDate where
  date : CivilDate
  msOfDay : Nat
deriving DecidableEq, Repr

/-- Gregorian leap-year test. -/
def isLeap (y : Int) : Bool :=
  y % 4 == 0 && (y % 100 != 0 || y % 400 == 0)

/-- Length of month `m` of year `y`. -/
def daysInMonth (y : Int) (m : Nat) : Nat :=
  if m = 2 then (if isLeap y then 29 else 28)
  else if m = 4 ∨ m = 6 ∨ m = 9 ∨ m = 11 then 30
  else 31

/-- Day number of a civil date counted from 1970-01-01 (standard
`days_from_civil`). -/
def daysFromCivil (c : CivilDate) : Int :=
  let y : Int := if c.month ≤ 2 then c.year - 1 else c.year
  let era : Int := Int.fdiv y 400
  let yoe : Nat := (y - era * 400).toNat
  let mp : Nat := (c.month + 9) % 12
  let doy : Nat := (153 * mp + 2) / 5 + c.day - 1
  let doe : Nat := yoe * 365 + yoe / 4 - yoe / 100 + doy
  era * 146097 + (doe : Int) - 719468

/-- Civil date of a day number (standard `civil_from_days`, inverse of
`daysFromCivil`). -/
def civilFromDays (z0 : Int) : CivilDate :=
  let z := z0 + 719468
  let era : Int := Int.fdiv z 146097
  let doe : Nat := (z - era * 146097).toNat
  let yoe : Nat := (doe - doe / 1460 + doe / 36524 - doe / 146096) / 365
  let y : Int := (yoe : Int) + era * 400
  let doy : Nat := doe - (365 * yoe + yoe / 4 - yoe / 100)
  let mp : Nat := (5 * doy + 2) / 153
  let d : Nat := doy - (153 * mp + 2) / 5 + 1
  let m : Nat := if mp < 10 then mp + 3 else mp - 9
  { year := if m ≤ 2 then y + 1 else y, month := m, day := d }

/-- Epoch milliseconds of a date (model of `Date.prototype.getTime` in
the reference frame). -/
def getTime (jd : JSDate) : Int :=
  daysFromCivil jd.date * 86400000 + (jd.msOfDay : Int)

/-- Embeds `stripTime` (src/main.ts:90-92): rebuild the date from its
year, month and day, dropping the time of day. -/
def stripTime (jd : JSDate) : JSDate :=
  { date := jd.date, msOfDay := 0 }

/-- `Math.round (n / d)` on exact integers, for `d > 0` (round half
toward positive infinity). -/
def roundDiv (n d : Int) : Int := Int.fdiv (2 * n + d) (2 * d)

/-- Embeds `daysBetween` (src/main.ts:94-96):
`Math.round((b.getTime() - a.getTime()) / 86400000)`. -/
def daysBetween (a b : JSDate) : Int :=
  roundDiv (getTime b - getTime a) 86400000

/-- JavaScript `padStart(2, "0")` on a character list. -/
def pad2 (cs : List Char) : List Char :=
  if cs.length = 0 then ['0', '0']
  else if cs.length = 1 then '0' :: cs
  else cs

/-- Embeds `toDateString` (src/main.ts:83-88): the canonical
`YYYY-MM-DD` form, month and day zero-padded to two characters. -/
def toDateString (jd : JSDate) : String :=
  String.mk (intToChars jd.date.year ++
    ('-' :: pad2 (natToChars jd.date.month)) ++
    ('-' :: pad2 (natToChars jd.date.day)))

/-- The ECMAScript date-only ISO grammar `YYYY-MM-DD` on a character
list, with calendar-range validation. -/
def parseDateChars : List Char → Option JSDate
  | [c1, c2, c3, c4, h1, c5, c6, h2, c7, c8] =>
      if h1 = '-' ∧ h2 = '-' ∧ c1.isDigit ∧ c2.isDigit ∧ c3.isDigit ∧
          c4.isDigit ∧ c5.isDigit ∧ c6.isDigit ∧ c7.isDigit ∧ c8.isDigit then
        if 1 ≤ charDigit c5 * 10 + charDigit c6 ∧
            charDigit c5 * 10 + charDigit c6 ≤ 12 ∧
            1 ≤ charDigit c7 * 10 + charDigit c8 ∧
            charDigit c7 * 10 + charDigit c8 ≤
              daysInMonth
                ((((charDigit c1 * 10 + charDigit c2) * 10 + charDigit c3) * 10 +
                    charDigit c4 : Nat) : Int)
                (charDigit c5 * 10 + charDigit c6) then
          some
            { date :=
                { year := ((((charDigit c1 * 10 + charDigit c2) * 10 + charDigit c3) * 10 +
                      charDigit c4 : Nat) : Int)
                  month := charDigit c5 * 10 + charDigit c6
                  day := charDigit c7 * 10 + charDigit c8 }
              msOfDay := 0 }
        else none
      else none
  | _ => none

/-- Model of `new Date(s)` on a string: the ECMAScript date-only ISO
grammar `YYYY-MM-DD` with calendar-range validation; every other string
yields an invalid date (`none`).  Host-specific fallback formats are
outside the model. -/
def parseJsDate (s : String) : Option JSDate :=
  parseDateChars s.data

/-- Model of `d.setDate(d.getDate() + k)`: shift the calendar date by
`k` days, keeping the time of day. -/
def setDatePlus (jd : JSDate) (k : Int) : JSDate :=
  { date := civilFromDays (daysFromCivil jd.date + k), msOfDay := jd.msOfDay }

/-! ## Review records and the scanner -/

/-- Embeds the `ReviewNote` record (src/main.ts:72-79).  The opaque
`TFile` reference is represented by the note's basename, which is also
what feeds `title`.  `reviewFreq` is a JavaScript number and may be
`NaN` (`none`). -/
structure ReviewNote where
  title : String
  reviewNext : JSDate
  reviewFreq : Option Int
  tags : List String
  daysUntil : Int
deriving DecidableEq, Repr

/-- The three frontmatter fields `scanVault` reads, keyed by the
configured `dateProperty`, `freqProperty` and the literal `"tags"`;
`none` = key absent. -/
structure Frontmatter where
  dateField : Option JsVal
  freqField : Option JsVal
  tagsField : Option JsVal

/-- One markdown file as seen by the scanner: its basename and its
frontmatter block, if any. -/
structure RawNote where
  basename : String
  frontmatter : Option Frontmatter

/-- Model of `(fm["tags"] ?? []).map(String)` (src/main.ts:188): the
`??` turns an absent or `null` field into `[]`; an array maps its
elements through `String`; any other value has no `.map` method and
throws a `TypeError`. -/
def jsTags : Option JsVal → Except Unit (List String)
  | none => Except.ok []
  | some JsVal.nul => Except.ok []
  | some (JsVal.list xs) => Except.ok (xs.map jsValToString)
  | some _ => Except.error ()

/-- Embeds one iteration of the `scanVault` loop (src/main.ts:177-198):
skip files without frontmatter, skip a falsy date field, skip an
unparseable date, then build the `ReviewNote` (coercing the level with
`Number(… ?? 0)` and the tags with `(… ?? []).map(String)`).
`Except.ok none` = the file is skipped; `Except.error ()` = the loop
throws. -/
def processNote (today : JSDate) (raw : RawNote) : Except Unit (Option ReviewNote) :=
  match raw.frontmatter with
  | none => Except.ok none
  | some fm =>
      match fm.dateField with
      | none => Except.ok none
      | some v =>
          if jsFalsy v then Except.ok none
          else
            match parseJsDate (jsValToString v) with
            | none => Except.ok none
            | some dt =>
                let reviewNext := stripTime dt
                let reviewFreq := jsNumber (fm.freqField.getD (JsVal.num 0))
                match jsTags fm.tagsField with
                | Except.error e => Except.error e
                | Except.ok tags =>
                    Except.ok (some
                      { title := raw.basename
                        reviewNext := reviewNext
                        reviewFreq := reviewFreq
                        tags := tags
                        daysUntil := daysBetween today reviewNext })

/-- The `scanVault` loop before the final sort: the surviving records
in file-encounter order (or the first thrown error). -/
def scanCollect (today : JSDate) (raws : List RawNote) :
    Except Unit (List ReviewNote) :=
  raws.foldlM
    (fun acc r =>
      match processNote today r with
      | Except.error e => Except.error e
      | Except.ok none => Except.ok acc
      | Except.ok (some n) => Except.ok (acc ++ [n]))
    []

/-- The ascending-`daysUntil` comparison of the sort at
src/main.ts:200. -/
def daysLE (a b : ReviewNote) : Bool := a.daysUntil ≤ b.daysUntil

/-- Embeds `scanVault` (src/main.ts:171-202): collect the valid
records, then sort ascending by `daysUntil` (JavaScript
`Array.prototype.sort` is stable, modelled by `List.mergeSort`). -/
def scanVault (today : JSDate) (raws : List RawNote) :
    Except Unit (List ReviewNote) :=
  match scanCollect today raws with
  | Except.error e => Except.error e
  | Except.ok notes => Except.ok (notes.mergeSort daysLE)

/-! ## Bucketizer -/

structure Buckets where
  overdue : List ReviewNote
  today : List ReviewNote
  upcoming : List ReviewNote
  later : List ReviewNote
deriving DecidableEq, Repr

/-- Embeds `bucketize` (src/main.ts:204-219): push each note, in input
order, onto the bucket selected by its `daysUntil`. -/
def bucketize (threshold : Int) (notes : List ReviewNote) : Buckets :=
  notes.foldl
    (fun b n =>
      if n.daysUntil < 0 then { b with overdue := b.overdue ++ [n] }
      else if n.daysUntil = 0 then { b with today := b.today ++ [n] }
      else if n.daysUntil ≤ threshold then { b with upcoming := b.upcoming ++ [n] }
      else { b with later := b.later ++ [n] })
    { overdue := [], today := [], upcoming := [], later := [] }

/-! ## Review advancer -/

structure AdvanceResult where
  newLevel : Option Int
  newDueDate : JSDate
deriving DecidableEq, Repr

/-- Embeds the advance computation of `ReviewModal.onOpen`
(src/main.ts:534-539): `newFreq = currentFreq + 1` and
`nextDate = new Date(); nextDate.setDate(nextDate.getDate() + d)`,
where `d` is the chosen interval (the table suggestion or a quick-pick
override).  The level is a JavaScript number (`NaN + 1 = NaN`). -/
def advance (level : Option Int) (d : Int) (now : JSDate) : AdvanceResult :=
  { newLevel := level.map (· + 1)
    newDueDate := setDatePlus now d }

/-! ## Concrete demonstration inputs (used by scenario parts and
witnesses) -/

def today0 : JSDate := { date := { year := 2024, month := 3, day := 10 }, msOfDay := 0 }

def rawGood : RawNote :=
  { basename := "note-a"
    frontmatter := some
      { dateField := some (JsVal.str "2024-03-15")
        freqField := some (JsVal.num 2)
        tagsField := some (JsVal.list [JsVal.str "x"]) } }

def rawNoFreq : RawNote :=
  { basename := "note-b"
    frontmatter := some
      { dateField := some (JsVal.str "2024-03-12")
        freqField := none
        tagsField := none } }

def rawBadFreq : RawNote :=
  { basename := "note-c"
    frontmatter := some
      { dateField := some (JsVal.str "2024-03-12")
        freqField := some (JsVal.str "abc")
        tagsField := none } }

def rawBadTags : RawNote :=
  { basename := "note-d"
    frontmatter := some
      { dateField := some (JsVal.str "2024-03-12")
        freqField := none
        tagsField := some (JsVal.num 5) } }

def rawNotADate : RawNote :=
  { basename := "note-e"
    frontmatter := some
      { dateField := some (JsVal.str "not-a-date")
        freqField := some (JsVal.num 1)
        tagsField := none } }

/-! ## Interval-table theorems (C2, C10) -/

/-- C2: `getInterval` on the empty table returns 1 for any level; on a
non-empty table it returns `table[level]` for `0 ≤ level < L` and
clamps to the last element for every `level ≥ L`, with no upper bound;
on the table parsed from `"1, 6, 9, 19, 75"` it yields 1 at level 0,
19 at level 3 and 75 at level 10. -/
theorem getInterval_clamps (t : List Int) (level : Int) (h0 : 0 ≤ level) :
    (t = [] → getInterval t level = some 1) ∧
    (∀ hl : level.toNat < t.length,
        getInterval t level = some (t.get ⟨level.toNat, hl⟩)) ∧
    (∀ ht : t ≠ [], (t.length : Int) ≤ level →
        getInterval t level = some (t.getLast ht)) ∧
    (getInterval (parseIntervals "1, 6, 9, 19, 75") 0 = some 1 ∧
     getInterval (parseIntervals "1, 6, 9, 19, 75") 3 = some 19 ∧
     getInterval (parseIntervals "1, 6, 9, 19, 75") 10 = some 75) := by
  refine ⟨?_, ?_, ?_, by decide, by decide, by decide⟩
  · intro h
    subst h
    simp [getInterval]
  · intro hl
    have hlen : ¬ t.length = 0 := by omega
    unfold getInterval
    rw [if_neg hlen, if_pos (by omega : level < (t.length : Int))]
    unfold jsIndex
    rw [dif_pos ⟨h0, hl⟩]
  · intro ht hle
    have hlen : ¬ t.length = 0 := fun h => ht (List.length_eq_zero.mp h)
    unfold getInterval
    rw [if_neg hlen, if_neg (by omega : ¬ level < (t.length : Int))]
    unfold jsIndex
    rw [dif_pos ⟨by omega, by omega⟩]
    have hidx : ((t.length : Int) - 1).toNat = t.length - 1 := by omega
    rw [List.getLast_eq_get]
    simp only [hidx]

theorem getInterval_clamps_witness :
    0 ≤ (10 : Int) ∧ getInterval (parseIntervals "1, 6, 9, 19, 75") 10 = some 75 :=
  ⟨by decide,
    (getInterval_clamps (parseIntervals "1, 6, 9, 19, 75") 10 (by decide)).2.2.2.2.2⟩

/-- C10: on a non-empty table, `getInterval` produces an element of the
table only under the precondition `level ≥ 0`; for every negative
level the access `intervals[level]` is out of bounds and the result is
`undefined`, not one of the table's entries. -/
theorem getInterval_requires_nonneg (t : List Int) (ht : t ≠ []) (level : Int) :
    (0 ≤ level → ∃ x ∈ t, getInterval t level = some x) ∧
    (level < 0 → getInterval t level = none) := by
  have hlen : ¬ t.length = 0 := fun h => ht (List.length_eq_zero.mp h)
  constructor
  · intro h0
    by_cases hlt : level < (t.length : Int)
    · have hl : level.toNat < t.length := by omega
      refine ⟨t.get ⟨level.toNat, hl⟩, List.get_mem t level.toNat hl, ?_⟩
      unfold getInterval
      rw [if_neg hlen, if_pos hlt]
      unfold jsIndex
      rw [dif_pos ⟨h0, hl⟩]
    · refine ⟨t.getLast ht, List.getLast_mem ht, ?_⟩
      unfold getInterval
      rw [if_neg hlen, if_neg hlt]
      unfold jsIndex
      rw [dif_pos ⟨by omega, by omega⟩]
      have hidx : ((t.length : Int) - 1).toNat = t.length - 1 := by omega
      rw [List.getLast_eq_get]
      simp only [hidx]
  · intro hneg
    unfold getInterval
    rw [if_neg hlen, if_pos (by omega : level < (t.length : Int))]
    unfold jsIndex
    rw [dif_neg (fun h => by omega)]

theorem getInterval_requires_nonneg_witness :
    ([3] : List Int) ≠ [] ∧ getInterval [3] (-1) = none :=
  ⟨by decide, (getInterval_requires_nonneg [3] (by decide) (-1)).2 (by decide)⟩

/-! ## Interval-parsing theorem (C9) -/

/-- The specification's description of interval parsing: the ordered
sequence of the comma-separated tokens that survive, i.e. whose trimmed
text parses to an integer `> 0`. -/
def parseIntervalsSpec (raw : String) : List Int :=
  (jsSplit raw).filterMap fun s =>
    match parseIntJS (jsTrim s) with
    | some n => if 0 < n then some n else none
    | none => none

/-- C9: `parseIntervals` splits on commas, trims and integer-parses each
token, and silently discards every token that fails to parse or is
`≤ 0`; the result is the ordered sequence of surviving positive
integers, empty exactly when no token survives. -/
theorem parseIntervals_spec_thm (raw : String) :
    parseIntervals raw = parseIntervalsSpec raw ∧
    (∀ n ∈ parseIntervals raw, 0 < n) ∧
    (parseIntervals raw = [] ↔
      ∀ s ∈ jsSplit raw, ∀ n : Int, parseIntJS (jsTrim s) = some n → n ≤ 0) := by
  have key : ∀ l : List String,
      ((l.map fun s => parseIntJS (jsTrim s)).filter fun o =>
          match o with
          | some n => decide (0 < n)
          | none => false).filterMap id =
        l.filterMap fun s =>
          match parseIntJS (jsTrim s) with
          | some n => if 0 < n then some n else none
          | none => none := by
    intro l
    induction l with
    | nil => rfl
    | cons s rest ih =>
        simp only [List.map_cons, List.filter_cons]
        cases hp : parseIntJS (jsTrim s) with
        | none => simpa [hp] using ih
        | some n =>
            by_cases hn : 0 < n
            · simpa [hp, hn] using ih
            · simpa [hp, hn] using ih
  have h1 : parseIntervals raw = parseIntervalsSpec raw := key (jsSplit raw)
  refine ⟨h1, ?_, ?_⟩
  · intro n hn
    rw [h1] at hn
    rcases List.mem_filterMap.mp hn with ⟨s, _, hg⟩
    cases hp : parseIntJS (jsTrim s) with
    | none => rw [hp] at hg; exact Option.noConfusion hg
    | some m =>
        rw [hp] at hg
        change (if 0 < m then some m else none) = some n at hg
        split_ifs at hg with hm
        have hmn := Option.some.inj hg
        omega
  · rw [h1]
    unfold parseIntervalsSpec
    rw [List.filterMap_eq_nil_iff]
    constructor
    · intro h s hs n hn
      have hnil := h s hs
      rw [hn] at hnil
      change (if 0 < n then some n else none) = none at hnil
      by_contra hc
      rw [if_pos (by omega : (0 : Int) < n)] at hnil
      exact Option.noConfusion hnil
    · intro h s hs
      cases hp : parseIntJS (jsTrim s) with
      | none => rfl
      | some m =>
          change (if 0 < m then some m else none) = none
          rw [if_neg (by have := h s hs m hp; omega)]

/-! ## Review-advancer theorem (C5) -/

/-- C5: for a record at integer level `n` and a chosen interval `d > 0`
(an unchecked precondition on the caller), `advance` yields
`newLevel = n + 1` and a new due date whose calendar day is
`normalize(today) + d` days; it returns only this pair, so persistence
is left to the caller. -/
theorem advance_spec (level d : Int) (hd : 0 < d) (now : JSDate) :
    (advance (some level) d now).newLevel = some (level + 1) ∧
    stripTime (advance (some level) d now).newDueDate = setDatePlus (stripTime now) d ∧
    toDateString (advance (some level) d now).newDueDate =
      toDateString (setDatePlus (stripTime now) d) :=
  ⟨rfl, rfl, rfl⟩

theorem advance_spec_witness :
    0 < (9 : Int) ∧
    ((advance (some 2) 9 today0).newLevel = some (2 + 1) ∧
     stripTime (advance (some 2) 9 today0).newDueDate =
       setDatePlus (stripTime today0) 9 ∧
     toDateString (advance (some 2) 9 today0).newDueDate =
       toDateString (setDatePlus (stripTime today0) 9)) :=
  ⟨by decide, advance_spec 2 9 (by decide) today0⟩

/-! ## Bucketizer theorems (C1) -/

/-- The `bucketize` fold with an arbitrary accumulator: each bucket
receives, in order, the input notes satisfying the corresponding branch
condition of the if/else chain. -/
theorem bucketize_go (t : Int) (notes : List ReviewNote) (b : Buckets) :
    notes.foldl
      (fun b n =>
        if n.daysUntil < 0 then { b with overdue := b.overdue ++ [n] }
        else if n.daysUntil = 0 then { b with today := b.today ++ [n] }
        else if n.daysUntil ≤ t then { b with upcoming := b.upcoming ++ [n] }
        else { b with later := b.later ++ [n] }) b =
    { overdue := b.overdue ++ notes.filter fun n => decide (n.daysUntil < 0)
      today := b.today ++ notes.filter fun n =>
        decide (¬ n.daysUntil < 0 ∧ n.daysUntil = 0)
      upcoming := b.upcoming ++ notes.filter fun n =>
        decide (¬ n.daysUntil < 0 ∧ ¬ n.daysUntil = 0 ∧ n.daysUntil ≤ t)
      later := b.later ++ notes.filter fun n =>
        decide (¬ n.daysUntil < 0 ∧ ¬ n.daysUntil = 0 ∧ ¬ n.daysUntil ≤ t) } := by
  induction notes generalizing b with
  | nil => simp
  | cons n ns ih =>
      simp only [List.foldl_cons, List.filter_cons]
      by_cases h1 : n.daysUntil < 0
      · rw [if_pos h1, ih]
        simp [h1]
      · rw [if_neg h1]
        by_cases h2 : n.daysUntil = 0
        · rw [if_pos h2, ih]
          simp [h1, h2]
        · rw [if_neg h2]
          by_cases h3 : n.daysUntil ≤ t
          · rw [if_pos h3, ih]
            simp [h1, h2, h3]
          · rw [if_neg h3, ih]
            simp [h1, h2, h3]

/-- The four bucket predicates partition the integers when the
threshold is non-negative: the filtered lengths sum to the input
length. -/
theorem four_filter_length (t : Int) (ht : 0 ≤ t) (notes : List ReviewNote) :
    (notes.filter fun n => decide (n.daysUntil < 0)).length +
    (notes.filter fun n => decide (n.daysUntil = 0)).length +
    (notes.filter fun n => decide (0 < n.daysUntil ∧ n.daysUntil ≤ t)).length +
    (notes.filter fun n => decide (t < n.daysUntil)).length = notes.length := by
  induction notes with
  | nil => rfl
  | cons n ns ih =>
      rcases (show n.daysUntil < 0 ∨ n.daysUntil = 0 ∨
          (0 < n.daysUntil ∧ n.daysUntil ≤ t) ∨ t < n.daysUntil by omega) with
        h | h | h | h
      · rw [List.filter_cons_of_pos (by rw [decide_eq_true_eq]; omega),
            List.filter_cons_of_neg (by rw [decide_eq_true_eq]; omega),
            List.filter_cons_of_neg (by rw [decide_eq_true_eq]; omega),
            List.filter_cons_of_neg (by rw [decide_eq_true_eq]; omega)]
        simp only [List.length_cons]
        omega
      · rw [List.filter_cons_of_neg (by rw [decide_eq_true_eq]; omega),
            List.filter_cons_of_pos (by rw [decide_eq_true_eq]; omega),
            List.filter_cons_of_neg (by rw [decide_eq_true_eq]; omega),
            List.filter_cons_of_neg (by rw [decide_eq_true_eq]; omega)]
        simp only [List.length_cons]
        omega
      · rw [List.filter_cons_of_neg (by rw [decide_eq_true_eq]; omega),
            List.filter_cons_of_neg (by rw [decide_eq_true_eq]; omega),
            List.filter_cons_of_pos (by rw [decide_eq_true_eq]; omega),
            List.filter_cons_of_neg (by rw [decide_eq_true_eq]; omega)]
        simp only [List.length_cons]
        omega
      · rw [List.filter_cons_of_neg (by rw [decide_eq_true_eq]; omega),
            List.filter_cons_of_neg (by rw [decide_eq_true_eq]; omega),
            List.filter_cons_of_neg (by rw [decide_eq_true_eq]; omega),
            List.filter_cons_of_pos (by rw [decide_eq_true_eq]; omega)]
        simp only [List.length_cons]
        omega

/-- C1: `bucketize` assigns each record to exactly one of the four
buckets, determined solely by its `daysUntil`: overdue iff `< 0`, today
iff `= 0`, upcoming iff `0 < · ≤ threshold`, later iff `> threshold`;
the bucket sizes sum to the input size, and with threshold 7 a record
with `daysUntil = 7` lands in upcoming while `daysUntil = 8` lands in
later. -/
theorem bucketize_partition (t : Int) (ht : 0 ≤ t) (notes : List ReviewNote) :
    ((bucketize t notes).overdue = notes.filter (fun n => decide (n.daysUntil < 0)) ∧
     (bucketize t notes).today = notes.filter (fun n => decide (n.daysUntil = 0)) ∧
     (bucketize t notes).upcoming =
       notes.filter (fun n => decide (0 < n.daysUntil ∧ n.daysUntil ≤ t)) ∧
     (bucketize t notes).later = notes.filter (fun n => decide (t < n.daysUntil))) ∧
    (∀ n ∈ notes,
       (n ∈ (bucketize t notes).overdue ↔ n.daysUntil < 0) ∧
       (n ∈ (bucketize t notes).today ↔ n.daysUntil = 0) ∧
       (n ∈ (bucketize t notes).upcoming ↔ 0 < n.daysUntil ∧ n.daysUntil ≤ t) ∧
       (n ∈ (bucketize t notes).later ↔ t < n.daysUntil)) ∧
    ((bucketize t notes).overdue.length + (bucketize t notes).today.length +
       (bucketize t notes).upcoming.length + (bucketize t notes).later.length =
       notes.length) ∧
    (∀ n ∈ notes, n.daysUntil = 7 → n ∈ (bucketize 7 notes).upcoming) ∧
    (∀ n ∈ notes, n.daysUntil = 8 → n ∈ (bucketize 7 notes).later) := by
  have hchar : ∀ t' : Int, 0 ≤ t' →
      (bucketize t' notes).overdue = notes.filter (fun n => decide (n.daysUntil < 0)) ∧
      (bucketize t' notes).today = notes.filter (fun n => decide (n.daysUntil = 0)) ∧
      (bucketize t' notes).upcoming =
        notes.filter (fun n => decide (0 < n.daysUntil ∧ n.daysUntil ≤ t')) ∧
      (bucketize t' notes).later =
        notes.filter (fun n => decide (t' < n.daysUntil)) := by
    intro t' ht'
    unfold bucketize
    rw [bucketize_go]
    refine ⟨rfl, ?_, ?_, ?_⟩
    · rw [List.nil_append]
      exact List.filter_congr fun n _ => by rw [decide_eq_decide]; omega
    · rw [List.nil_append]
      exact List.filter_congr fun n _ => by rw [decide_eq_decide]; omega
    · rw [List.nil_append]
      exact List.filter_congr fun n _ => by rw [decide_eq_decide]; omega
  have hc := hchar t ht
  refine ⟨hc, ?_, ?_, ?_, ?_⟩
  · intro n hn
    rw [hc.1, hc.2.1, hc.2.2.1, hc.2.2.2]
    simp [List.mem_filter, hn]
  · rw [hc.1, hc.2.1, hc.2.2.1, hc.2.2.2]
    exact four_filter_length t ht notes
  · intro n hn hd
    rw [(hchar 7 (by omega)).2.2.1]
    rw [List.mem_filter]
    exact ⟨hn, by simp [hd]⟩
  · intro n hn hd
    rw [(hchar 7 (by omega)).2.2.2]
    rw [List.mem_filter]
    exact ⟨hn, by simp [hd]⟩

def note7 : ReviewNote :=
  { title := "n7", reviewNext := today0, reviewFreq := some 0, tags := [], daysUntil := 7 }

def note8 : ReviewNote :=
  { title := "n8", reviewNext := today0, reviewFreq := some 0, tags := [], daysUntil := 8 }

theorem bucketize_partition_witness :
    0 ≤ (7 : Int) ∧ note7 ∈ (bucketize 7 [note7, note8]).upcoming ∧
      note8 ∈ (bucketize 7 [note7, note8]).later :=
  ⟨by decide,
    (bucketize_partition 7 (by decide) [note7, note8]).2.2.2.1 note7 (by simp) rfl,
    (bucketize_partition 7 (by decide) [note7, note8]).2.2.2.2 note8 (by simp) rfl⟩

/-! ## Scanner theorems (C7, C4, C6) -/

/-- C7: a raw record whose date field is absent, falsy (e.g. the empty
string) or unparseable (e.g. `"not-a-date"`) produces no `ReviewNote`:
the scanner skips it without error, and a scan of any vault containing
it equals the scan of the vault without it. -/
theorem scan_skips_bad_date (today : JSDate) (raw : RawNote) (fm : Frontmatter)
    (hfm : raw.frontmatter = some fm)
    (h : fm.dateField = none ∨
      ∃ v, fm.dateField = some v ∧
        (jsFalsy v = true ∨ parseJsDate (jsValToString v) = none)) :
    processNote today raw = Except.ok none ∧
    ∀ pre post : List RawNote,
      scanVault today (pre ++ raw :: post) = scanVault today (pre ++ post) := by
  have hskip : processNote today raw = Except.ok none := by
    rcases h with h | ⟨v, hv, hcase⟩
    · simp [processNote, hfm, h]
    · rcases hcase with hf | hp
      · simp [processNote, hfm, hv, hf]
      · by_cases hf : jsFalsy v
        · simp [processNote, hfm, hv, hf]
        · simp [processNote, hfm, hv, hf, hp]
  refine ⟨hskip, fun pre post => ?_⟩
  have hcol : scanCollect today (pre ++ raw :: post) = scanCollect today (pre ++ post) := by
    unfold scanCollect
    rw [List.foldlM_append, List.foldlM_append]
    refine congrArg (fun g => _ >>= g) (funext fun b => ?_)
    simp only [List.foldlM_cons]
    rw [hskip]
    rfl
  unfold scanVault
  rw [hcol]

theorem scan_skips_bad_date_witness :
    rawNotADate.frontmatter = some
      { dateField := some (JsVal.str "not-a-date")
        freqField := some (JsVal.num 1)
        tagsField := none } ∧
    processNote today0 rawNotADate = Except.ok none ∧
    scanVault today0 ([rawGood] ++ rawNotADate :: [rawNoFreq]) =
      scanVault today0 ([rawGood] ++ [rawNoFreq]) := by
  have h := scan_skips_bad_date today0 rawNotADate _ rfl
    (Or.inr ⟨JsVal.str "not-a-date", rfl, Or.inr (by decide)⟩)
  exact ⟨rfl, h.1, h.2 [rawGood] [rawNoFreq]⟩

/-- C4 counterexample: a raw record whose level field holds the
non-numeric string `"abc"` yields a `ReviewNote` whose level is `NaN`
(`none`), not `0` — `Number("abc")` is `NaN`, so the claimed fallback
to `0` does not happen (though nothing throws). -/
theorem scan_level_nonnumeric_cex :
    processNote today0 rawBadFreq = Except.ok (some
      { title := "note-c"
        reviewNext := { date := { year := 2024, month := 3, day := 12 }, msOfDay := 0 }
        reviewFreq := none
        tags := []
        daysUntil := 2 }) ∧
    jsNumber (JsVal.str "abc") = none ∧
    ¬ jsNumber (JsVal.str "abc") = some 0 := by
  exact ⟨rfl, rfl, by decide⟩

/-- C4 (amended): for a raw record whose date parses and whose tags
coerce, the scanner always produces a record (the level coercion never
throws), with level `Number(freqField ?? 0)`: `0` when the field is
absent, the numeric value when it is a number, and `NaN` — not `0` —
when it is a non-numeric string. -/
theorem scan_level_coercion (today : JSDate) (raw : RawNote) (fm : Frontmatter)
    (v : JsVal) (dt : JSDate) (ts : List String)
    (hfm : raw.frontmatter = some fm) (hv : fm.dateField = some v)
    (hfalsy : jsFalsy v = false) (hdt : parseJsDate (jsValToString v) = some dt)
    (hts : jsTags fm.tagsField = Except.ok ts) :
    processNote today raw = Except.ok (some
      { title := raw.basename
        reviewNext := stripTime dt
        reviewFreq := jsNumber (fm.freqField.getD (JsVal.num 0))
        tags := ts
        daysUntil := daysBetween today (stripTime dt) }) ∧
    (fm.freqField = none → jsNumber (fm.freqField.getD (JsVal.num 0)) = some 0) ∧
    (∀ n : Int, fm.freqField = some (JsVal.num n) →
      jsNumber (fm.freqField.getD (JsVal.num 0)) = some n) ∧
    (∀ s : String, fm.freqField = some (JsVal.str s) → jsNumberOfString s = none →
      jsNumber (fm.freqField.getD (JsVal.num 0)) = none) := by
  refine ⟨?_, ?_, ?_, ?_⟩
  · simp [processNote, hfm, hv, hfalsy, hdt, hts]
  · intro h
    rw [h]
    rfl
  · intro n h
    rw [h]
    rfl
  · intro s h hnan
    rw [h]
    simpa [jsNumber] using hnan

theorem scan_level_coercion_witness :
    rawNoFreq.frontmatter = some
      { dateField := some (JsVal.str "2024-03-12"), freqField := none, tagsField := none } ∧
    processNote today0 rawNoFreq = Except.ok (some
      { title := "note-b"
        reviewNext := { date := { year := 2024, month := 3, day := 12 }, msOfDay := 0 }
        reviewFreq := some 0
        tags := []
        daysUntil := 2 }) := by
  have h := scan_level_coercion today0 rawNoFreq
    { dateField := some (JsVal.str "2024-03-12"), freqField := none, tagsField := none }
    (JsVal.str "2024-03-12")
    { date := { year := 2024, month := 3, day := 12 }, msOfDay := 0 }
    [] rfl rfl (by decide) (by decide) rfl
  exact ⟨rfl, h.1⟩

/-- C6 counterexample: a raw record whose `tags` field is the scalar
`5` makes the whole scan throw a `TypeError` (`5` has no `.map`), so
scanning does not succeed for arbitrary metadata shapes. -/
theorem scan_tags_throw_cex :
    scanVault today0 [rawGood, rawBadTags] = Except.error () ∧
    jsTags (some (JsVal.num 5)) = Except.error () :=
  ⟨rfl, rfl⟩

/-- C6 (amended): scanning never throws provided every present `tags`
field is absent, `null`, or an array: an absent or `null` field becomes
the empty tag list and an array maps its elements through `String`; a
scalar `tags` value, however, is a `TypeError`. -/
theorem scan_tags_spec (today : JSDate) (raws : List RawNote)
    (h : ∀ r ∈ raws, ∀ fm, r.frontmatter = some fm →
        fm.tagsField = none ∨ fm.tagsField = some JsVal.nul ∨
        ∃ xs, fm.tagsField = some (JsVal.list xs)) :
    (scanVault today raws).isOk = true ∧
    jsTags none = Except.ok [] ∧
    jsTags (some JsVal.nul) = Except.ok [] ∧
    (∀ xs, jsTags (some (JsVal.list xs)) = Except.ok (xs.map jsValToString)) := by
  have hpn : ∀ r ∈ raws, ∃ o, processNote today r = Except.ok o := by
    intro r hr
    rcases hfm : r.frontmatter with _ | fm
    · exact ⟨none, by simp [processNote, hfm]⟩
    · rcases hdf : fm.dateField with _ | v
      · exact ⟨none, by simp [processNote, hfm, hdf]⟩
      · by_cases hf : jsFalsy v
        · exact ⟨none, by simp [processNote, hfm, hdf, hf]⟩
        · rcases hpd : parseJsDate (jsValToString v) with _ | dt
          · exact ⟨none, by simp [processNote, hfm, hdf, hf, hpd]⟩
          · rcases h r hr fm hfm with ht | ht | ⟨xs, ht⟩
            · refine ⟨some
                { title := r.basename, reviewNext := stripTime dt
                  reviewFreq := jsNumber (fm.freqField.getD (JsVal.num 0))
                  tags := [], daysUntil := daysBetween today (stripTime dt) }, ?_⟩
              simp [processNote, hfm, hdf, hf, hpd, ht, jsTags]
            · refine ⟨some
                { title := r.basename, reviewNext := stripTime dt
                  reviewFreq := jsNumber (fm.freqField.getD (JsVal.num 0))
                  tags := [], daysUntil := daysBetween today (stripTime dt) }, ?_⟩
              simp [processNote, hfm, hdf, hf, hpd, ht, jsTags]
            · refine ⟨some
                { title := r.basename, reviewNext := stripTime dt
                  reviewFreq := jsNumber (fm.freqField.getD (JsVal.num 0))
                  tags := xs.map jsValToString
                  daysUntil := daysBetween today (stripTime dt) }, ?_⟩
              simp [processNote, hfm, hdf, hf, hpd, ht, jsTags]
  have hco : ∀ l : List RawNote, (∀ r ∈ l, ∃ o, processNote today r = Except.ok o) →
      ∀ acc : List ReviewNote, ∃ out,
        l.foldlM
          (fun acc r =>
            match processNote today r with
            | Except.error e => Except.error e
            | Except.ok none => Except.ok acc
            | Except.ok (some n) => Except.ok (acc ++ [n])) acc = Except.ok out := by
    intro l
    induction l with
    | nil => exact fun _ acc => ⟨acc, rfl⟩
    | cons r rs ih =>
        intro hl acc
        rcases hl r (List.mem_cons_self r rs) with ⟨o, ho⟩
        have ih' := ih (fun r' hr' => hl r' (List.mem_cons_of_mem r hr'))
        rcases o with _ | n
        · rcases ih' acc with ⟨out, hout⟩
          refine ⟨out, ?_⟩
          simp only [List.foldlM_cons]
          rw [ho]
          exact hout
        · rcases ih' (acc ++ [n]) with ⟨out, hout⟩
          refine ⟨out, ?_⟩
          simp only [List.foldlM_cons]
          rw [ho]
          exact hout
  refine ⟨?_, rfl, rfl, fun xs => rfl⟩
  rcases hco raws hpn [] with ⟨out, hout⟩
  have : scanCollect today raws = Except.ok out := hout
  unfold scanVault
  rw [this]
  rfl

theorem scan_tags_spec_witness :
    (scanVault today0 [rawGood]).isOk = true ∧
    jsTags (some (JsVal.list [JsVal.str "x"])) = Except.ok ["x"] := by
  have h := scan_tags_spec today0 [rawGood] (by
    intro r hr fm hfm
    rw [List.mem_singleton] at hr
    subst hr
    rw [show rawGood.frontmatter = some
      { dateField := some (JsVal.str "2024-03-15")
        freqField := some (JsVal.num 2)
        tagsField := some (JsVal.list [JsVal.str "x"]) } from rfl] at hfm
    cases hfm
    exact Or.inr (Or.inr ⟨[JsVal.str "x"], rfl⟩))
  exact ⟨h.1, h.2.2.2 [JsVal.str "x"]⟩

/-! ## Scan-ordering theorems (C8) -/

/-- `daysLE` is transitive. -/
theorem daysLE_trans (a b c : ReviewNote) (hab : daysLE a b) (hbc : daysLE b c) :
    daysLE a c := by
  simp only [daysLE, decide_eq_true_eq] at *
  omega

/-- `daysLE` is total. -/
theorem daysLE_total (a b : ReviewNote) : daysLE a b || daysLE b a := by
  simp only [daysLE, Bool.or_eq_true, decide_eq_true_eq]
  omega

/-- C8: a successful scan is sorted ascending by `daysUntil` (most
overdue first); records with equal `daysUntil` keep their encounter
order (the per-key filtrations of the output and of the unsorted
collection coincide — stability); and scanning is deterministic. -/
theorem scanVault_sorted_stable (today : JSDate) (raws : List RawNote)
    (out : List ReviewNote) (h : scanVault today raws = Except.ok out) :
    out.Sorted (fun a b => a.daysUntil ≤ b.daysUntil) ∧
    (∀ base, scanCollect today raws = Except.ok base →
      out.Perm base ∧
      ∀ k : Int, out.filter (fun n => decide (n.daysUntil = k)) =
        base.filter (fun n => decide (n.daysUntil = k))) ∧
    scanVault today raws = scanVault today raws := by
  cases hc : scanCollect today raws with
  | error e =>
      unfold scanVault at h
      rw [hc] at h
      exact absurd h (by simp)
  | ok base0 =>
      have hout : out = base0.mergeSort daysLE := by
        unfold scanVault at h
        rw [hc] at h
        exact (Except.ok.inj h).symm
      subst hout
      refine ⟨?_, ?_, rfl⟩
      · exact List.Pairwise.imp
          (fun hab => by simpa [daysLE, decide_eq_true_eq] using hab)
          (List.sorted_mergeSort daysLE_trans daysLE_total base0)
      · intro base hbase
        have hb : base = base0 := (Except.ok.inj hbase).symm
        subst hb
        refine ⟨List.mergeSort_perm base daysLE, fun k => ?_⟩
        set p : ReviewNote → Bool := fun n => decide (n.daysUntil = k) with hp
        have hself : (base.filter p).filter p = base.filter p :=
          List.filter_eq_self.mpr fun a ha => (List.mem_filter.mp ha).2
        have hpair : (base.filter p).Pairwise fun a b => daysLE a b := by
          refine List.pairwise_of_forall_mem_list fun a ha b hb => ?_
          have ha' := (List.mem_filter.mp ha).2
          have hb' := (List.mem_filter.mp hb).2
          rw [hp] at ha' hb'
          simp only [decide_eq_true_eq] at ha' hb'
          simp only [daysLE, decide_eq_true_eq]
          omega
        have hsub2 : List.Sublist (base.filter p) (base.mergeSort daysLE) :=
          List.sublist_mergeSort daysLE_trans daysLE_total hpair (List.filter_sublist base)
        have hsub3 : List.Sublist (base.filter p) ((base.mergeSort daysLE).filter p) := by
          rw [← hself]
          exact hsub2.filter p
        have hlen : ((base.mergeSort daysLE).filter p).length = (base.filter p).length :=
          ((List.mergeSort_perm base daysLE).filter p).length_eq
        exact (hsub3.eq_of_length hlen.symm).symm

def noteA : ReviewNote :=
  { title := "note-a"
    reviewNext := { date := { year := 2024, month := 3, day := 15 }, msOfDay := 0 }
    reviewFreq := some 2
    tags := ["x"]
    daysUntil := 5 }

theorem scanVault_sorted_stable_witness :
    List.Sorted (fun a b : ReviewNote => a.daysUntil ≤ b.daysUntil) [noteA] ∧
    [noteA].Perm [noteA] ∧
    [noteA].filter (fun n => decide (n.daysUntil = 5)) =
      [noteA].filter (fun n => decide (n.daysUntil = 5)) := by
  have hcol : scanCollect today0 [rawGood] = Except.ok [noteA] := rfl
  have hscan : scanVault today0 [rawGood] = Except.ok [noteA] := by
    unfold scanVault
    rw [hcol]
    show Except.ok ([noteA].mergeSort daysLE) = Except.ok [noteA]
    rw [List.mergeSort_singleton]
  have h := scanVault_sorted_stable today0 [rawGood] [noteA] hscan
  exact ⟨h.1, (h.2.1 [noteA] hcol).1, (h.2.1 [noteA] hcol).2 5⟩

/-! ## Date round-trip (C3) -/

theorem digitChar_isDigit (d : Nat) (h : d < 10) : (digitChar d).isDigit = true := by
  interval_cases d <;> decide

theorem charDigit_digitChar (d : Nat) (h : d < 10) : charDigit (digitChar d) = d := by
  interval_cases d <;> decide

theorem natToCharsAux_of_lt (n : Nat) (acc : List Char) (h : n < 10) :
    natToCharsAux n acc = digitChar n :: acc := by
  rw [natToCharsAux]
  rw [if_pos h]

theorem natToCharsAux_of_ge (n : Nat) (acc : List Char) (h : ¬ n < 10) :
    natToCharsAux n acc = natToCharsAux (n / 10) (digitChar (n % 10) :: acc) := by
  rw [natToCharsAux]
  rw [if_neg h]

/-- A four-digit number renders as its four decimal digits. -/
theorem natToChars_four (y : Nat) (h1 : 1000 ≤ y) (h2 : y ≤ 9999) :
    natToChars y = [digitChar (y / 1000), digitChar (y / 100 % 10),
      digitChar (y / 10 % 10), digitChar (y % 10)] := by
  unfold natToChars
  rw [natToCharsAux_of_ge _ _ (by omega)]
  rw [natToCharsAux_of_ge _ _ (by omega)]
  rw [natToCharsAux_of_ge _ _ (by omega)]
  rw [natToCharsAux_of_lt _ _ (by omega)]
  rw [show y / 10 / 10 = y / 100 from by omega]
  rw [show y / 100 / 10 = y / 1000 from by omega]

/-- A number between 1 and 99 zero-pads to exactly its two decimal
digits. -/
theorem pad2_natToChars (m : Nat) (h1 : 1 ≤ m) (h2 : m ≤ 99) :
    pad2 (natToChars m) = [digitChar (m / 10), digitChar (m % 10)] := by
  by_cases hm : m < 10
  · unfold natToChars
    rw [natToCharsAux_of_lt _ _ hm]
    unfold pad2
    rw [if_neg (by simp), if_pos (by simp)]
    rw [show m / 10 = 0 from by omega, show m % 10 = m from by omega]
    rfl
  · unfold natToChars
    rw [natToCharsAux_of_ge _ _ hm]
    rw [natToCharsAux_of_lt _ _ (by omega)]
    unfold pad2
    rw [if_neg (by simp), if_neg (by simp)]

theorem daysInMonth_le (y : Int) (m : Nat) : daysInMonth y m ≤ 31 := by
  unfold daysInMonth
  split_ifs <;> omega

/-- A valid calendar date for the canonical `YYYY-MM-DD` form: a
four-digit year and an in-range month and day. -/
def ValidCivil (c : CivilDate) : Prop :=
  1000 ≤ c.year ∧ c.year ≤ 9999 ∧ 1 ≤ c.month ∧ c.month ≤ 12 ∧
  1 ≤ c.day ∧ c.day ≤ daysInMonth c.year c.month

instance (c : CivilDate) : Decidable (ValidCivil c) := by
  unfold ValidCivil
  infer_instance

/-- C3: for every valid calendar date, parsing the canonical
`YYYY-MM-DD` string written by `toDateString` returns exactly the
day-normalized date: `parse(canonicalString(d)) = normalize(d)`. -/
theorem date_roundtrip (jd : JSDate) (h : ValidCivil jd.date) :
    parseJsDate (toDateString jd) = some (stripTime jd) := by
  obtain ⟨hy1, hy2, hm1, hm2, hd1, hd2⟩ := h
  have hdm : jd.date.day ≤ 31 := le_trans hd2 (daysInMonth_le _ _)
  have hy0 : ¬ jd.date.year < 0 := by omega
  have hYlo : 1000 ≤ jd.date.year.toNat := by omega
  have hYhi : jd.date.year.toNat ≤ 9999 := by omega
  show parseDateChars (toDateString jd).data = some (stripTime jd)
  have hdata : (toDateString jd).data =
      intToChars jd.date.year ++ ('-' :: pad2 (natToChars jd.date.month)) ++
        ('-' :: pad2 (natToChars jd.date.day)) := rfl
  rw [hdata]
  rw [show intToChars jd.date.year = natToChars jd.date.year.toNat from by
    unfold intToChars; rw [if_neg hy0]]
  rw [natToChars_four jd.date.year.toNat hYlo hYhi]
  rw [pad2_natToChars jd.date.month hm1 (by omega)]
  rw [pad2_natToChars jd.date.day hd1 (by omega)]
  simp only [List.cons_append, List.nil_append]
  rw [parseDateChars]
  rw [if_pos ⟨rfl, rfl,
    digitChar_isDigit _ (by omega),
    digitChar_isDigit _ (by omega),
    digitChar_isDigit _ (by omega),
    digitChar_isDigit _ (by omega),
    digitChar_isDigit _ (by omega),
    digitChar_isDigit _ (by omega),
    digitChar_isDigit _ (by omega),
    digitChar_isDigit _ (by omega)⟩]
  rw [charDigit_digitChar _ (by omega), charDigit_digitChar _ (by omega),
      charDigit_digitChar _ (by omega), charDigit_digitChar _ (by omega),
      charDigit_digitChar _ (by omega), charDigit_digitChar _ (by omega),
      charDigit_digitChar _ (by omega), charDigit_digitChar _ (by omega)]
  rw [show ((jd.date.year.toNat / 1000 * 10 + jd.date.year.toNat / 100 % 10) * 10 +
        jd.date.year.toNat / 10 % 10) * 10 + jd.date.year.toNat % 10 =
      jd.date.year.toNat from by omega]
  rw [show jd.date.month / 10 * 10 + jd.date.month % 10 = jd.date.month from by omega]
  rw [show jd.date.day / 10 * 10 + jd.date.day % 10 = jd.date.day from by omega]
  rw [show ((jd.date.year.toNat : Int)) = jd.date.year from by omega]
  rw [if_pos ⟨hm1, hm2, hd1, hd2⟩]
  rfl

theorem date_roundtrip_witness :
    ValidCivil { year := 2024, month := 3, day := 5 } ∧
    parseJsDate (toDateString
        { date := { year := 2024, month := 3, day := 5 }, msOfDay := 987 }) =
      some (stripTime { date := { year := 2024, month := 3, day := 5 }, msOfDay := 987 }) :=
  ⟨by decide, date_roundtrip { date := { year := 2024, month := 3, day := 5 }, msOfDay := 987 } (by decide)⟩
